import Mathlib

/-
Verification development for the scheduled-agent repository.

The repository's core (src/scheduler.py, src/agent.py, src/utils.py) is
shallowly embedded here.  Python strings are modelled as `List Char`,
Python `datetime` values (second resolution, naive) as `DateTime`,
`dateutil.relativedelta` values (only the month/day components the code
produces) as `RelativeDelta`, JSON values as `Json`, and fallible Python
code as `Option`/`Except`.  External library calls (`dateutil.parser`,
`json.loads`, the `re` module) are modelled on the input grammars that
this system itself produces and consumes; the doc comment of each such
definition records the restriction.
-/

set_option maxRecDepth 8000

namespace WillDo

/-- Naive date-time at second resolution, mirroring the values the code
builds with `datetime.datetime` (microseconds are always zeroed by the
code paths modelled here). -/
structure DateTime where
  year : Nat
  month : Nat
  day : Nat
  hour : Nat
  minute : Nat
  second : Nat
deriving DecidableEq, Repr

/-- Model of `dateutil.relativedelta` restricted to the components
`get_frequency_delta` ever sets: relative months and relative days
(`relativedelta` itself folds `weeks` into `days` as `days + 7*weeks`). -/
structure RelativeDelta where
  months : Int
  days : Int
deriving DecidableEq, Repr

/-- Gregorian leap-year test, as in Python's `calendar`/`datetime`. -/
def isLeap (y : Nat) : Bool :=
  (y % 4 == 0 && y % 100 != 0) || y % 400 == 0

/-- Length of a month in the proleptic Gregorian calendar. -/
def daysInMonth (y m : Nat) : Nat :=
  if m = 2 then (if isLeap y then 29 else 28)
  else if m = 4 ∨ m = 6 ∨ m = 9 ∨ m = 11 then 30
  else 31

/-- Days in the months strictly before month `m` of year `y`. -/
def daysBeforeMonth (y m : Nat) : Nat :=
  (List.range (m - 1)).foldl (fun a i => a + daysInMonth y (i + 1)) 0

/-- Proleptic-Gregorian ordinal of a date, with `0001-01-01` at ordinal 1,
as in Python's `datetime.date.toordinal`. -/
def toOrdinal (y m d : Nat) : Nat :=
  365 * (y - 1) + (y - 1) / 4 + (y - 1) / 400 - (y - 1) / 100 + daysBeforeMonth y m + d

/-- Locate the month containing a (1-based) day-of-year; fuel-bounded walk
over the twelve months. -/
def monthDayAux (y : Nat) : Nat → Nat → Nat → Nat × Nat
  | 0, m, d => (m, d)
  | fuel + 1, m, d =>
    if d ≤ daysInMonth y m then (m, d)
    else monthDayAux y fuel (m + 1) (d - daysInMonth y m)

/-- Inverse of `toOrdinal` (CPython's `_ord2ymd` scheme); `none` when the
ordinal falls outside the `datetime` range of years 1..9999, where Python
raises `OverflowError`. -/
def fromOrdinal (n : Int) : Option (Nat × Nat × Nat) :=
  if n < 1 then none
  else
    let n0 := n.toNat - 1
    let n400 := n0 / 146097
    let r1 := n0 % 146097
    let n100 := r1 / 36524
    let r2 := r1 % 36524
    let n4 := r2 / 1461
    let r3 := r2 % 1461
    let n1 := r3 / 365
    let r4 := r3 % 365
    let year := n400 * 400 + n100 * 100 + n4 * 4 + n1 + 1
    if n100 = 4 ∨ n1 = 4 then
      if year - 1 > 9999 then none else some (year - 1, 12, 31)
    else if year > 9999 then none
    else
      let md := monthDayAux year 12 1 (r4 + 1)
      some (year, md.1, md.2)

/-- Add a signed number of calendar days (Python `datetime + timedelta(days=k)`);
`none` models the `OverflowError` outside years 1..9999. -/
def addDays (dt : DateTime) (k : Int) : Option DateTime :=
  match fromOrdinal ((toOrdinal dt.year dt.month dt.day : Int) + k) with
  | some (y, m, d) => some ⟨y, m, d, dt.hour, dt.minute, dt.second⟩
  | none => none

/-- Add a signed number of months with day-of-month clamping, exactly as
`relativedelta` adjusts year/month and clamps the day to the month length. -/
def addMonths (dt : DateTime) (mo : Int) : Option DateTime :=
  let tot : Int := (dt.year : Int) * 12 + (dt.month : Int) - 1 + mo
  let y := tot.fdiv 12
  let m := tot.fmod 12 + 1
  if y < 1 ∨ y > 9999 then none
  else some ⟨y.toNat, m.toNat, min dt.day (daysInMonth y.toNat m.toNat), dt.hour, dt.minute, dt.second⟩

/-- Apply a `RelativeDelta` to a `DateTime`: `relativedelta.__radd__` first
performs the month arithmetic (with clamping), then adds the day offset. -/
def applyDelta (dt : DateTime) (δ : RelativeDelta) : Option DateTime :=
  match addMonths dt δ.months with
  | some d1 => addDays d1 δ.days
  | none => none

/-- Total order key for naive date-times, used to model `datetime`
comparison (`now >= next_run`). -/
def dtKey (dt : DateTime) : Nat :=
  toOrdinal dt.year dt.month dt.day * 86400 + dt.hour * 3600 + dt.minute * 60 + dt.second

/-- In-range, well-formed date-time: exactly the values Python's
`datetime` can hold at second resolution. -/
def ValidDT (dt : DateTime) : Prop :=
  1 ≤ dt.year ∧ dt.year ≤ 9999 ∧ 1 ≤ dt.month ∧ dt.month ≤ 12 ∧
  1 ≤ dt.day ∧ dt.day ≤ daysInMonth dt.year dt.month ∧
  dt.hour ≤ 23 ∧ dt.minute ≤ 59 ∧ dt.second ≤ 59

instance (dt : DateTime) : Decidable (ValidDT dt) := by
  unfold ValidDT; infer_instance

/-- ASCII digit character for a value below ten. -/
def digC (d : Nat) : Char := Char.ofNat (48 + d)

/-- Two-digit zero-padded rendering (`%02d`), as in `datetime.isoformat`. -/
def fmt2 (n : Nat) : List Char := [digC (n / 10), digC (n % 10)]

/-- Four-digit zero-padded year rendering (`%04d`). -/
def fmt4 (n : Nat) : List Char :=
  [digC (n / 1000), digC (n / 100 % 10), digC (n / 10 % 10), digC (n % 10)]

/-- `date.isoformat()`: `YYYY-MM-DD`. -/
def fmtDate (y m d : Nat) : List Char :=
  fmt4 y ++ '-' :: (fmt2 m ++ '-' :: fmt2 d)

/-- `datetime.isoformat()` at second resolution:
`YYYY-MM-DDTHH:MM:SS` (microseconds are zero on all modelled paths, so
Python never appends a fractional part). -/
def formatIso (dt : DateTime) : List Char :=
  fmtDate dt.year dt.month dt.day ++
    'T' :: (fmt2 dt.hour ++ ':' :: (fmt2 dt.minute ++ ':' :: fmt2 dt.second))

/-- Numeric value of an ASCII digit character. -/
def digVal (c : Char) : Option Nat :=
  if '0' ≤ c ∧ c ≤ '9' then some (c.toNat - 48) else none

/-- Combine two digit characters into a number below 100. -/
def dig2 (a b : Char) : Option Nat :=
  (digVal a).bind fun x => (digVal b).map fun y => 10 * x + y

/-- Combine four digit characters into a number below 10000. -/
def dig4 (a b c d : Char) : Option Nat :=
  (digVal a).bind fun x => (digVal b).bind fun y =>
    (digVal c).bind fun z => (digVal d).map fun w =>
      1000 * x + 100 * y + 10 * z + w

/-- Build a `DateTime` after range-validating every field, as the
`dateutil` parsers do before constructing a `datetime`. -/
def mkDT (y mo d h mi s : Nat) : Option DateTime :=
  if ValidDT ⟨y, mo, d, h, mi, s⟩ then some ⟨y, mo, d, h, mi, s⟩ else none

/-- Model of `dateutil.parser.parse` / `parser.isoparse` restricted to the
two shapes this system itself stores: a full `YYYY-MM-DDTHH:MM:SS`
timestamp (what `isoformat` emits on every modelled path) and a bare
`YYYY-MM-DD` date (which parses with the time defaulted to 00:00:00).
Anything else is `none`, modelling a raised `ParserError`. -/
def parseDT (s : List Char) : Option DateTime :=
  match s with
  | [y1, y2, y3, y4, '-', m1, m2, '-', d1, d2, 'T', h1, h2, ':', n1, n2, ':', s1, s2] =>
    (dig4 y1 y2 y3 y4).bind fun y => (dig2 m1 m2).bind fun mo =>
      (dig2 d1 d2).bind fun d => (dig2 h1 h2).bind fun h =>
        (dig2 n1 n2).bind fun mi => (dig2 s1 s2).bind fun s =>
          mkDT y mo d h mi s
  | [y1, y2, y3, y4, '-', m1, m2, '-', d1, d2] =>
    (dig4 y1 y2 y3 y4).bind fun y => (dig2 m1 m2).bind fun mo =>
      (dig2 d1 d2).bind fun d => mkDT y mo d 0 0 0
  | _ => none

theorem daysInMonth_le (y m : Nat) : daysInMonth y m ≤ 31 := by
  unfold daysInMonth
  split
  · split <;> omega
  · split <;> omega

theorem digVal_digC (d : Nat) (h : d < 10) : digVal (digC d) = some d := by
  interval_cases d <;> decide

theorem dig2_fmt (n : Nat) (h : n < 100) :
    dig2 (digC (n / 10)) (digC (n % 10)) = some n := by
  have h1 : n / 10 < 10 := by omega
  have h2 : n % 10 < 10 := by omega
  simp [dig2, digVal_digC _ h1, digVal_digC _ h2]
  omega

theorem dig4_fmt (n : Nat) (h : n < 10000) :
    dig4 (digC (n / 1000)) (digC (n / 100 % 10)) (digC (n / 10 % 10)) (digC (n % 10)) = some n := by
  have h1 : n / 1000 < 10 := by omega
  have h2 : n / 100 % 10 < 10 := by omega
  have h3 : n / 10 % 10 < 10 := by omega
  have h4 : n % 10 < 10 := by omega
  simp [dig4, digVal_digC _ h1, digVal_digC _ h2, digVal_digC _ h3, digVal_digC _ h4]
  omega

/-- Parsing inverts formatting on every value `datetime` can hold. -/
theorem parseDT_formatIso (dt : DateTime) (h : ValidDT dt) :
    parseDT (formatIso dt) = some dt := by
  obtain ⟨y, mo, d, hh, mi, ss⟩ := dt
  unfold ValidDT at h
  dsimp only at h
  obtain ⟨hy1, hy2, hm1, hm2, hd1, hd2, hh1, hn1, hs1⟩ := h
  have hdm := daysInMonth_le y mo
  simp only [formatIso, fmtDate, fmt4, fmt2, List.cons_append, List.nil_append]
  simp only [parseDT]
  rw [dig4_fmt y (by omega), dig2_fmt mo (by omega), dig2_fmt d (by omega),
    dig2_fmt hh (by omega), dig2_fmt mi (by omega), dig2_fmt ss (by omega)]
  simp only [Option.bind_some, Option.some_bind]
  rw [mkDT, if_pos]
  exact ⟨hy1, hy2, hm1, hm2, hd1, hd2, hh1, hn1, hs1⟩

/-- Parsing also inverts the date-only rendering, giving midnight. -/
theorem parseDT_fmtDate (y mo d : Nat)
    (hy1 : 1 ≤ y) (hy2 : y ≤ 9999) (hm1 : 1 ≤ mo) (hm2 : mo ≤ 12)
    (hd1 : 1 ≤ d) (hd2 : d ≤ daysInMonth y mo) :
    parseDT (fmtDate y mo d) = some ⟨y, mo, d, 0, 0, 0⟩ := by
  have hdm := daysInMonth_le y mo
  simp only [fmtDate, fmt4, fmt2, List.cons_append, List.nil_append]
  simp only [parseDT]
  rw [dig4_fmt y (by omega), dig2_fmt mo (by omega), dig2_fmt d (by omega)]
  simp only [Option.bind_some, Option.some_bind]
  rw [mkDT, if_pos]
  unfold ValidDT
  dsimp only
  exact ⟨hy1, hy2, hm1, hm2, hd1, hd2, by omega, by omega, by omega⟩

/-- Python whitespace, as recognised by `str.strip()` / `str.split()`
(ASCII part). -/
def isPyWs (c : Char) : Bool :=
  c = ' ' || c = '\t' || c = '\n' || c = '\r' || c = '\x0b' || c = '\x0c'

/-- Python `str.strip()`. -/
def pyStrip (s : List Char) : List Char :=
  ((s.dropWhile isPyWs).reverse.dropWhile isPyWs).reverse

/-- Python `str.lower()` (ASCII part, which is all the code compares). -/
def pyLower (s : List Char) : List Char := s.map Char.toLower

/-- Python substring containment `needle in hay`. -/
def isSubstr (needle : List Char) : List Char → Bool
  | [] => needle.isPrefixOf []
  | c :: t => needle.isPrefixOf (c :: t) || isSubstr needle t

/-- Index of the first occurrence of `sep` in `s`, scanning left to right
(the scan underlying `str.split(sep)` and `str.find`). -/
def findSub (sep : List Char) : List Char → Option Nat
  | [] => if sep.isPrefixOf [] then some 0 else none
  | c :: t =>
    if sep.isPrefixOf (c :: t) then some 0
    else (findSub sep t).map (· + 1)

/-- One step of `str.split(sep)`: split off the text before the first
occurrence of `sep`. -/
def pySplitAux (sep : List Char) : Nat → List Char → List (List Char)
  | 0, s => [s]
  | fuel + 1, s =>
    match findSub sep s with
    | none => [s]
    | some i => s.take i :: pySplitAux sep fuel (s.drop (i + sep.length))

/-- Python `str.split(sep)` for a non-empty separator: split on every
non-overlapping occurrence, keeping empty parts. -/
def pySplit (sep s : List Char) : List (List Char) :=
  pySplitAux sep (s.length + 1) s

/-- One step of `str.split()` (no separator): drop leading whitespace,
take a word, recurse. -/
def splitWsAux : Nat → List Char → List (List Char)
  | 0, _ => []
  | fuel + 1, s =>
    match s.dropWhile isPyWs with
    | [] => []
    | c :: t =>
      ((c :: t).takeWhile (fun x => !isPyWs x)) ::
        splitWsAux fuel ((c :: t).dropWhile (fun x => !isPyWs x))

/-- Python `str.split()` with no argument: whitespace-delimited words,
no empty parts. -/
def splitWs (s : List Char) : List (List Char) :=
  splitWsAux (s.length + 1) s

/-- Value of a non-empty all-digit string. -/
def digitsVal (l : List Char) : Option Nat :=
  if l ≠ [] ∧ l.all (fun c => (digVal c).isSome) = true then
    some (l.foldl (fun a c => a * 10 + ((digVal c).getD 0)) 0)
  else none

/-- Model of Python `int(s)` on the strings the scheduler feeds it:
optional surrounding whitespace, an optional sign, then decimal digits.
(Underscore digit separators and non-ASCII digits, which Python also
accepts, are outside the model.)  `none` models a raised `ValueError`. -/
def pyInt (s : List Char) : Option Int :=
  match pyStrip s with
  | [] => none
  | c :: t =>
    if c = '-' then (digitsVal t).map fun m => -(m : Int)
    else if c = '+' then (digitsVal t).map fun m => (m : Int)
    else (digitsVal (c :: t)).map fun m => (m : Int)

/-- `utils.get_frequency_delta`: parse a frequency string into a
`relativedelta`.  Exact matches for daily/weekly/monthly come first; then
substring checks for day/week/month take the first whitespace token as a
count, falling back to one unit when indexing or `int()` fails; anything
else defaults to one day. -/
def get_frequency_delta (frequency : List Char) : RelativeDelta :=
  let freq_lower := pyLower frequency
  if freq_lower = ("daily".data) then ⟨0, 1⟩
  else if freq_lower = ("weekly".data) then ⟨0, 7⟩
  else if freq_lower = ("monthly".data) then ⟨1, 0⟩
  else if isSubstr ("day".data) freq_lower then
    match (splitWs freq_lower).head?.bind pyInt with
    | some amount => ⟨0, amount⟩
    | none => ⟨0, 1⟩
  else if isSubstr ("week".data) freq_lower then
    match (splitWs freq_lower).head?.bind pyInt with
    | some amount => ⟨0, 7 * amount⟩
    | none => ⟨0, 7⟩
  else if isSubstr ("month".data) freq_lower then
    match (splitWs freq_lower).head?.bind pyInt with
    | some amount => ⟨amount, 0⟩
    | none => ⟨1, 0⟩
  else ⟨0, 1⟩

/-- `utils.calculate_next_run`: parse the previous scheduled time, add the
frequency delta, and render the result.  `none` models a raised exception
(unparseable input, or date overflow), which the scheduler catches
per-task.  The current wall-clock time is not an input. -/
def calculate_next_run (current_run_iso : List Char) (frequency : List Char) : Option (List Char) :=
  match parseDT current_run_iso with
  | none => none
  | some current_run =>
    match applyDelta current_run (get_frequency_delta frequency) with
    | none => none
    | some next_time => some (formatIso next_time)

/-- Force the time-of-day to 07:00:00
(`dt.replace(hour=7, minute=0, second=0, microsecond=0)`). -/
def setTime7 (dt : DateTime) : DateTime :=
  ⟨dt.year, dt.month, dt.day, 7, 0, 0⟩

/-- The `None`/empty branch of `normalize_next_run`: now plus the
frequency delta, at 07:00:00.  `none` models a propagated overflow. -/
def normDefault (frequency : List Char) (now : DateTime) : Option (List Char) :=
  match applyDelta now (get_frequency_delta frequency) with
  | some future_date => some (formatIso (setTime7 future_date))
  | none => none

/-- The trailing general-parse branch of `normalize_next_run`: parse and
re-render, or return the value unchanged when parsing fails. -/
def normGeneral (v : List Char) : Option (List Char) :=
  match parseDT (pyStrip v) with
  | some dt => some (formatIso dt)
  | none => some v

/-- `utils.normalize_next_run`: resolve the raw `next_run` field into a
canonical ISO string.  `none` for the whole result models an exception
escaping the function (only possible via date overflow in the default
branch); the unparseable case returns the input unchanged.  `dateutil`'s
lenient `parser.parse` is modelled by `parseDT` over the stripped value
(the grammar this system itself writes). -/
def normalize_next_run (next_run_val : Option (List Char)) (frequency : List Char)
    (now : DateTime) : Option (List Char) :=
  match next_run_val with
  | none => normDefault frequency now
  | some v =>
    if v = [] ∨ pyStrip v = [] then normDefault frequency now
    else if pyLower (pyStrip v) = ("now".data) then some (formatIso now)
    else if (pyStrip v).length = 10 ∧ isSubstr (['T']) v = false then
      match parseDT (pyStrip v) with
      | some dt => some (formatIso (setTime7 dt))
      | none => normGeneral v
    else normGeneral v

/-- Opening brace character (written numerically throughout). -/
def lbrace : Char := Char.ofNat 123

/-- Closing brace character. -/
def rbrace : Char := Char.ofNat 125

/-- Double-quote character. -/
def qmark : Char := Char.ofNat 34

/-- JSON values, as produced by `json.loads` on the subset the system
exchanges (numbers restricted to integers). -/
inductive Json where
  | null : Json
  | bool (b : Bool) : Json
  | num (n : Int) : Json
  | str (s : List Char) : Json
  | arr (xs : List Json) : Json
  | obj (kvs : List (List Char × Json)) : Json
deriving Repr

/-- JSON insignificant whitespace. -/
def jsonWs (c : Char) : Bool :=
  c = ' ' || c = '\t' || c = '\n' || c = '\r'

/-- Scan a JSON string body up to the closing quote.  Escape sequences are
outside the model (their presence makes the model parser fail where Python
would succeed; no claim depends on an escaped string). -/
def jsonStrAux : List Char → Option (List Char × List Char)
  | [] => none
  | c :: t =>
    if c = qmark then some ([], t)
    else if c = '\\' then none
    else match jsonStrAux t with
      | some (s, r) => some (c :: s, r)
      | none => none

/-- Scan an optionally signed decimal integer. -/
def jsonNum (s : List Char) : Option (Int × List Char) :=
  match s with
  | '-' :: t =>
    let ds := t.takeWhile fun c => (digVal c).isSome
    (digitsVal ds).map fun n => (-(n : Int), t.drop ds.length)
  | t =>
    let ds := t.takeWhile fun c => (digVal c).isSome
    (digitsVal ds).map fun n => ((n : Int), t.drop ds.length)

mutual

/-- Fuel-bounded recursive-descent JSON value parser
(model of the grammar `json.loads` accepts, integer numerals only). -/
def jsonVal : Nat → List Char → Option (Json × List Char)
  | 0, _ => none
  | fuel + 1, s =>
    let s' := s.dropWhile jsonWs
    match s' with
    | [] => none
    | c :: t =>
      if c = lbrace then
        match (c :: t).drop 1 |>.dropWhile jsonWs with
        | d :: t' => if d = rbrace then some (Json.obj [], t') else jsonMembers fuel t
        | [] => none
      else if c = '[' then
        match t.dropWhile jsonWs with
        | d :: t' => if d = ']' then some (Json.arr [], t') else
            (jsonItems fuel t).map fun p => (Json.arr p.1, p.2)
        | [] => none
      else if c = qmark then
        (jsonStrAux t).map fun p => (Json.str p.1, p.2)
      else if ("true".data).isPrefixOf s' then some (Json.bool true, s'.drop 4)
      else if ("false".data).isPrefixOf s' then some (Json.bool false, s'.drop 5)
      else if ("null".data).isPrefixOf s' then some (Json.null, s'.drop 4)
      else
        (jsonNum s').map fun p => (Json.num p.1, p.2)

/-- Object members after the opening brace (at least one expected). -/
def jsonMembers : Nat → List Char → Option (Json × List Char)
  | 0, _ => none
  | fuel + 1, s =>
    match s.dropWhile jsonWs with
    | c :: t =>
      if c = qmark then
        match jsonStrAux t with
        | some (k, r) =>
          match r.dropWhile jsonWs with
          | ':' :: r' =>
            match jsonVal fuel r' with
            | some (v, r'') =>
              match r''.dropWhile jsonWs with
              | ',' :: r3 =>
                match jsonMembers fuel r3 with
                | some (Json.obj rest, r4) => some (Json.obj ((k, v) :: rest), r4)
                | _ => none
              | d :: r3 =>
                if d = rbrace then some (Json.obj [(k, v)], r3) else none
              | [] => none
            | none => none
          | _ => none
        | none => none
      else none
    | [] => none

/-- Array items after the opening bracket (at least one expected). -/
def jsonItems : Nat → List Char → Option (List Json × List Char)
  | 0, _ => none
  | fuel + 1, s =>
    match jsonVal fuel s with
    | some (v, r) =>
      match r.dropWhile jsonWs with
      | ',' :: r' =>
        match jsonItems fuel r' with
        | some (vs, r'') => some (v :: vs, r'')
        | none => none
      | ']' :: r' => some ([v], r')
      | _ => none
    | none => none

end

/-- Model of `json.loads`: parse one value and require only whitespace to
remain. -/
def jsonParse (s : List Char) : Option Json :=
  match jsonVal (s.length + 1) s with
  | some (j, rest) => if rest.dropWhile jsonWs = [] then some j else none
  | none => none

/-- Regex `\s` (ASCII part), for the fenced-block pattern. -/
def isReSpace (c : Char) : Bool :=
  c = ' ' || c = '\t' || c = '\n' || c = '\r' || c = '\x0b' || c = '\x0c'

/-- After a candidate closing brace: `\s*` then a literal fence.  Since a
backquote is not whitespace, the greedy `\s*` has exactly one viable
stopping point. -/
def fenceClose (u : List Char) : Bool :=
  ("```".data).isPrefixOf (u.dropWhile isReSpace)

/-- Non-greedy scan for the first closing brace whose suffix matches
`\s*` + fence; `seen` holds the consumed body reversed. -/
def fenceBodyAux : List Char → List Char → Option (List Char)
  | _, [] => none
  | seen, c :: t =>
    if c = rbrace ∧ fenceClose t = true then some ((lbrace :: seen.reverse) ++ [rbrace])
    else fenceBodyAux (c :: seen) t

/-- Match `\s*(\{.*?\})\s*` + fence at the current position, returning the
capture group. -/
def fenceBody (r : List Char) : Option (List Char) :=
  match r.dropWhile isReSpace with
  | c :: t => if c = lbrace then fenceBodyAux [] t else none
  | [] => none

/-- Match the whole fenced-block pattern anchored at this position,
preferring to consume the optional `json` tag first, as the regex engine
does. -/
def fenceAt (s : List Char) : Option (List Char) :=
  if ("```".data).isPrefixOf s then
    let rest := s.drop 3
    let withTag := if ("json".data).isPrefixOf rest then fenceBody (rest.drop 4) else none
    match withTag with
    | some g => some g
    | none => fenceBody rest
  else none

/-- Model of
`re.search(r"` + "```" + `(?:json)?\s*(\{.*?\})\s*` + "```" + `", memory_part, re.DOTALL)`:
leftmost match wins, the body is shortest-first. -/
def reFence : List Char → Option (List Char)
  | [] => none
  | c :: t =>
    match fenceAt (c :: t) with
    | some g => some g
    | none => reFence t

/-- The `clean_memory` extraction ladder in `TaskRunner.run_task`: fenced
block, else first `{` to last `}` when they bracket something, else the
stripped remainder. -/
def extractClean (memory_part : List Char) : List Char :=
  match reFence memory_part with
  | some g => g
  | none =>
    match findSub [lbrace] memory_part, findSub [rbrace] memory_part.reverse with
    | some start_idx, some rev_idx =>
      let end_idx := memory_part.length - 1 - rev_idx
      if start_idx < end_idx then
        (memory_part.take (end_idx + 1)).drop start_idx
      else pyStrip memory_part
    | _, _ => pyStrip memory_part

/-- A task record as the scheduler reads it from its JSON file.  Fields
the Executor alone consumes (prompt, tools, model) do not influence the
modelled control flow and are omitted; `frequency` is optional with the
scheduler supplying the `"daily"` default. -/
structure Task where
  name : List Char
  next_run : Option (List Char)
  frequency : Option (List Char)
  context : Json

/-- What `TaskRunner.run_task` hands back to the scheduler. -/
structure RunResult where
  report : List Char
  new_context : Json

/-- The `USER_REPORT:` marker. -/
def urMarker : List Char := "USER_REPORT:".data

/-- The `NEW_MEMORY:` marker. -/
def nmMarker : List Char := "NEW_MEMORY:".data

/-- Head of the system-error fallback report built in `run_task`'s
`except` clause (`"Error executing task: " + str(e)`). -/
def errHead : List Char := "Error executing task: ".data

/-- Diagnostic suffix appended to the report when the NEW_MEMORY block
fails to parse. -/
def parseFailNote (msg : List Char) : List Char :=
  ("\n\n[SYSTEM ERROR: Failed to parse NEW_MEMORY. ".data) ++ msg ++ ("]".data)

/-- Message of the `ValueError` raised by `raise ValueError("Empty memory block found")`. -/
def emptyMemMsg : List Char := "Empty memory block found".data

/-- Stand-in for the `json.JSONDecodeError` message text (the code only
interpolates it into the diagnostic note; its exact wording is opaque to
every modelled decision). -/
def jsonErrMsg : List Char := "Invalid JSON".data

/-- Message of the `ValueError` raised by unpacking
`remaining.split("NEW_MEMORY:")` into two variables when the split has a
different arity. -/
def unpackMsg : List Char := "too many values to unpack (expected 2)".data

/-- The response-interpretation section of `TaskRunner.run_task`
(agent.py lines 118-163), as a function of the Executor's returned text
and the prior context.  `Except.error` models an exception escaping this
section to the outer handler (only the tuple-unpack `ValueError` can).
With `USER_REPORT:` absent the whole text is the report and the memory
stays the initial `\x7b\x7d`; with `NEW_MEMORY:` absent from the first
post-marker segment the trimmed segment is the report and the memory
stays `\x7b\x7d`; otherwise the extracted memory substring is parsed,
falling back to the prior context with an annotated report. -/
def parseResponse (text : List Char) (context_data : Json) : Except (List Char) RunResult :=
  if isSubstr urMarker text = true then
    let remaining := (pySplit urMarker text).getD 1 []
    if isSubstr nmMarker remaining = true then
      match pySplit nmMarker remaining with
      | [report_part, memory_part] =>
        let report := pyStrip report_part
        let clean_memory := extractClean memory_part
        match (if clean_memory = [] then none else jsonParse clean_memory) with
        | some new_memory => Except.ok ⟨report, new_memory⟩
        | none =>
          Except.ok ⟨report ++ parseFailNote
            (if clean_memory = [] then emptyMemMsg else jsonErrMsg), context_data⟩
      | _ => Except.error unpackMsg
    else Except.ok ⟨pyStrip remaining, Json.obj []⟩
  else Except.ok ⟨text, Json.obj []⟩

/-- `TaskRunner.run_task` at the scheduler interface.  The Executor
invocation itself is the opaque collaborator: its outcome is an input,
either the returned final-response text or the message of a raised
exception.  The enclosing `try`/`except` makes the function total: any
raise, from the invocation or from response parsing, becomes the fallback
report with the task's prior context. -/
def run_task (cfg : Task) (outcome : Except (List Char) (List Char)) : RunResult :=
  match outcome with
  | Except.error e => ⟨errHead ++ e, cfg.context⟩
  | Except.ok text =>
    match parseResponse text cfg.context with
    | Except.ok r => r
    | Except.error e => ⟨errHead ++ e, cfg.context⟩

/-- The scheduler's hard-failure test (scheduler.py lines 115-121):
`"Error" in report and len(report) < 200` guarding
`report.startswith("Error executing task:")`. -/
def isFailureReport (report : List Char) : Bool :=
  isSubstr ("Error".data) report && decide (report.length < 200) &&
    ("Error executing task:".data).isPrefixOf report

/-- Observable per-task outcome of one `process_tasks` pass: whether the
normalization rewrite was persisted, what (if anything) the ResultWriter
wrote, and the persisted `next_run`/`context` fields once the pass is
over. -/
structure PassResult where
  normSaved : Bool
  savedReport : Option (List Char)
  finalNextRun : Option (List Char)
  finalContext : Json

/-- The per-task body of `TaskScheduler.process_tasks` (scheduler.py
lines 60-149) for one task: normalize `next_run` (persisting a changed
value immediately), parse it and check due-ness, run the task, write the
report, and either retain the schedule on a recognised hard failure or
persist the advanced `next_run` together with the new context.  A raised
exception anywhere inside the per-task `try` leaves the persisted record
as it stood.  File writes are modelled as succeeding; `exec` is the
Executor outcome fed through `run_task`. -/
def processTask (task : Task) (now : DateTime) (exec : Except (List Char) (List Char)) :
    PassResult :=
  let freq := (task.frequency).getD ("daily".data)
  match normalize_next_run task.next_run freq now with
  | none =>
    { normSaved := false, savedReport := none,
      finalNextRun := task.next_run, finalContext := task.context }
  | some normalized =>
    let changed := decide (task.next_run ≠ some normalized)
    match parseDT normalized with
    | none =>
      { normSaved := changed, savedReport := none,
        finalNextRun := some normalized, finalContext := task.context }
    | some next_run =>
      if dtKey next_run ≤ dtKey now then
        let rd := run_task task exec
        if isFailureReport rd.report then
          { normSaved := changed, savedReport := some rd.report,
            finalNextRun := some normalized, finalContext := task.context }
        else
          match calculate_next_run normalized freq with
          | some new_next_run =>
            { normSaved := changed, savedReport := some rd.report,
              finalNextRun := some new_next_run, finalContext := rd.new_context }
          | none =>
            { normSaved := changed, savedReport := some rd.report,
              finalNextRun := some normalized, finalContext := task.context }
      else
        { normSaved := changed, savedReport := none,
          finalNextRun := some normalized, finalContext := task.context }

theorem dropWhile_eq_self_of (p : Char → Bool) (s : List Char)
    (h : ∀ c ∈ s, p c = false) : s.dropWhile p = s := by
  cases s with
  | nil => rfl
  | cons c t =>
    rw [List.dropWhile_cons, h c (List.mem_cons_self c t)]
    simp

theorem pyStrip_eq_self (s : List Char) (h : ∀ c ∈ s, isPyWs c = false) :
    pyStrip s = s := by
  unfold pyStrip
  rw [dropWhile_eq_self_of _ _ h,
    dropWhile_eq_self_of _ _ (fun c hc => h c (List.mem_reverse.mp hc)),
    List.reverse_reverse]

theorem isSubstr_mem (nd hay : List Char) (h : isSubstr nd hay = true) :
    ∀ c ∈ nd, c ∈ hay := by
  induction hay with
  | nil =>
    simp only [isSubstr] at h
    intro c hc
    rw [List.isPrefixOf_iff_prefix, List.prefix_nil] at h
    subst h
    exact absurd hc (List.not_mem_nil c)
  | cons a t ih =>
    simp only [isSubstr, Bool.or_eq_true] at h
    rcases h with h | h
    · rw [List.isPrefixOf_iff_prefix] at h
      exact fun c hc => h.subset hc
    · exact fun c hc => List.mem_cons_of_mem a (ih h c hc)

theorem isSubstr_cons_of (nd : List Char) (a : Char) (t : List Char)
    (h : isSubstr nd t = true) : isSubstr nd (a :: t) = true := by
  simp [isSubstr, h]

theorem isSubstr_append_right (nd l m : List Char) (h : isSubstr nd m = true) :
    isSubstr nd (l ++ m) = true := by
  induction l with
  | nil => simpa using h
  | cons a t ih => exact isSubstr_cons_of nd a (t ++ m) ih

theorem isSubstr_false_of_not_mem (nd hay : List Char) (c : Char)
    (hc : c ∈ nd) (hh : c ∉ hay) : isSubstr nd hay = false := by
  cases h : isSubstr nd hay with
  | false => rfl
  | true => exact absurd (isSubstr_mem nd hay h c hc) hh

theorem isPrefixOf_append_left (l m : List Char) : l.isPrefixOf (l ++ m) = true := by
  rw [List.isPrefixOf_iff_prefix]
  exact List.prefix_append l m

theorem isSubstr_self_append (nd m : List Char) : isSubstr nd (nd ++ m) = true := by
  cases hn : nd with
  | nil => cases m <;> simp [isSubstr, List.isPrefixOf]
  | cons a t =>
    have := isPrefixOf_append_left (a :: t) m
    simp [isSubstr, this]

theorem isPyWs_digC (d : Nat) (h : d < 10) : isPyWs (digC d) = false := by
  interval_cases d <;> decide

theorem toLower_digC (d : Nat) (h : d < 10) : Char.toLower (digC d) = digC d := by
  interval_cases d <;> decide

theorem digC_ne (d : Nat) (h : d < 10) (c : Char) (hc : 48 + d ≠ c.toNat) :
    digC d ≠ c := by
  intro he
  apply hc
  rw [← he]
  interval_cases d <;> rfl

theorem mem_fmt2 (n : Nat) (h : n < 100) (c : Char) (hc : c ∈ fmt2 n) :
    ∃ d, d < 10 ∧ c = digC d := by
  simp only [fmt2, List.mem_cons, List.not_mem_nil, or_false] at hc
  rcases hc with rfl | rfl
  · exact ⟨n / 10, by omega, rfl⟩
  · exact ⟨n % 10, by omega, rfl⟩

theorem mem_fmt4 (n : Nat) (h : n < 10000) (c : Char) (hc : c ∈ fmt4 n) :
    ∃ d, d < 10 ∧ c = digC d := by
  simp only [fmt4, List.mem_cons, List.not_mem_nil, or_false] at hc
  rcases hc with rfl | rfl | rfl | rfl
  · exact ⟨n / 1000, by omega, rfl⟩
  · exact ⟨n / 100 % 10, by omega, rfl⟩
  · exact ⟨n / 10 % 10, by omega, rfl⟩
  · exact ⟨n % 10, by omega, rfl⟩

theorem mem_fmtDate (y mo d : Nat) (hy : y < 10000) (hm : mo < 100) (hd : d < 100)
    (c : Char) (hc : c ∈ fmtDate y mo d) :
    (∃ k, k < 10 ∧ c = digC k) ∨ c = '-' := by
  simp only [fmtDate, List.mem_append, List.mem_cons] at hc
  rcases hc with h4 | rfl | h2 | rfl | h2
  · exact Or.inl (mem_fmt4 y hy c h4)
  · exact Or.inr rfl
  · exact Or.inl (mem_fmt2 mo hm c h2)
  · exact Or.inr rfl
  · exact Or.inl (mem_fmt2 d hd c h2)

theorem mem_formatIso (dt : DateTime) (h : ValidDT dt) (c : Char)
    (hc : c ∈ formatIso dt) :
    (∃ k, k < 10 ∧ c = digC k) ∨ c = '-' ∨ c = 'T' ∨ c = ':' := by
  obtain ⟨y, mo, d, hh, mi, ss⟩ := dt
  unfold ValidDT at h
  dsimp only at h
  have hdm := daysInMonth_le y mo
  simp only [formatIso, List.mem_append, List.mem_cons] at hc
  rcases hc with hd4 | hc
  · rcases mem_fmtDate y mo d (by omega) (by omega) (by omega) c hd4 with h1 | rfl
    · exact Or.inl h1
    · exact Or.inr (Or.inl rfl)
  · rcases hc with rfl | h2 | hc
    · exact Or.inr (Or.inr (Or.inl rfl))
    · exact Or.inl (mem_fmt2 hh (by omega) c h2)
    · rcases hc with rfl | h2 | hc
      · exact Or.inr (Or.inr (Or.inr rfl))
      · exact Or.inl (mem_fmt2 mi (by omega) c h2)
      · rcases hc with rfl | h2
        · exact Or.inr (Or.inr (Or.inr rfl))
        · exact Or.inl (mem_fmt2 ss (by omega) c h2)

theorem formatIso_no_ws (dt : DateTime) (h : ValidDT dt) :
    ∀ c ∈ formatIso dt, isPyWs c = false := by
  intro c hc
  rcases mem_formatIso dt h c hc with ⟨k, hk, rfl⟩ | rfl | rfl | rfl
  · exact isPyWs_digC k hk
  all_goals decide

theorem formatIso_length (dt : DateTime) : (formatIso dt).length = 19 := by
  simp [formatIso, fmtDate, fmt4, fmt2]

theorem fmtDate_length (y mo d : Nat) : (fmtDate y mo d).length = 10 := by
  simp [fmtDate, fmt4, fmt2]

theorem pyLower_length (s : List Char) : (pyLower s).length = s.length := by
  simp [pyLower]

/-- C5: for every valid timestamp `t` and every frequency string `freq`,
`calculate_next_run` is deterministic (it is a pure function of exactly
these two inputs — no clock is consulted) and equals `t` plus the
frequency delta, rendered back: it advances from the previously scheduled
time, with the partiality of date overflow shared by both sides. -/
theorem c5_calculate_next_run_adds_delta (dt : DateTime) (freq : List Char)
    (h : ValidDT dt) :
    calculate_next_run (formatIso dt) freq =
      (applyDelta dt (get_frequency_delta freq)).map formatIso := by
  unfold calculate_next_run
  rw [parseDT_formatIso dt h]
  dsimp only
  cases applyDelta dt (get_frequency_delta freq) <;> rfl

/-- Witness for C5 at `2025-03-10T09:30:00` with frequency `weekly`. -/
theorem c5_witness :
    calculate_next_run (formatIso ⟨2025, 3, 10, 9, 30, 0⟩) ("weekly".data) =
      (applyDelta ⟨2025, 3, 10, 9, 30, 0⟩ (get_frequency_delta ("weekly".data))).map formatIso ∧
    calculate_next_run (formatIso ⟨2025, 3, 10, 9, 30, 0⟩) ("weekly".data) =
      some (formatIso ⟨2025, 3, 17, 9, 30, 0⟩) :=
  ⟨c5_calculate_next_run_adds_delta ⟨2025, 3, 10, 9, 30, 0⟩ ("weekly".data) (by decide),
   by decide⟩

/-- C7: normalizing an already-canonical absolute timestamp (the
`isoformat` rendering of any representable date-time, which always
carries seconds) returns it unchanged, for every frequency and every
current time; consequently the scheduler's change-detection finds nothing
to re-save for such a task, so the normalization write happens at most
once per sentinel. -/
theorem c7_normalize_canonical_idempotent (dt : DateTime) (freq : List Char)
    (now : DateTime) (h : ValidDT dt) :
    normalize_next_run (some (formatIso dt)) freq now = some (formatIso dt) ∧
    ∀ (nm : List Char) (fo : Option (List Char)) (ctx : Json)
      (exec : Except (List Char) (List Char)),
      (processTask ⟨nm, some (formatIso dt), fo, ctx⟩ now exec).normSaved = false := by
  have hstrip : pyStrip (formatIso dt) = formatIso dt :=
    pyStrip_eq_self _ (formatIso_no_ws dt h)
  have hnorm : ∀ f : List Char,
      normalize_next_run (some (formatIso dt)) f now = some (formatIso dt) := by
    intro f
    unfold normalize_next_run
    dsimp only
    rw [if_neg, if_neg, if_neg]
    · unfold normGeneral
      rw [hstrip, parseDT_formatIso dt h]
    · rw [hstrip]
      intro hlen
      have := formatIso_length dt
      omega
    · rw [hstrip]
      intro hnoweq
      have h1 : (pyLower (formatIso dt)).length = 19 := by
        rw [pyLower_length]; exact formatIso_length dt
      rw [hnoweq] at h1
      simp at h1
    · rw [hstrip]
      intro hor
      have h19 := formatIso_length dt
      rcases hor with he | he <;> rw [he] at h19 <;> simp at h19
  refine ⟨hnorm freq, ?_⟩
  intro nm fo ctx exec
  unfold processTask
  dsimp only
  rw [hnorm ((fo).getD ("daily".data))]
  simp only [ne_eq, eq_self_iff_true, not_true_eq_false, decide_False]
  rcases parseDT (formatIso dt) with _ | nr
  · rfl
  · dsimp only
    split
    · split
      · rfl
      · rcases calculate_next_run (formatIso dt) ((fo).getD ("daily".data)) with _ | nnr <;> rfl
    · rfl

/-- Witness for C7 at the canonical timestamp `2025-01-01T07:00:00`. -/
theorem c7_witness :
    normalize_next_run (some (formatIso ⟨2025, 1, 1, 7, 0, 0⟩)) ("daily".data)
        ⟨2025, 6, 1, 12, 0, 0⟩ = some (formatIso ⟨2025, 1, 1, 7, 0, 0⟩) ∧
    (processTask ⟨"t".data, some (formatIso ⟨2025, 1, 1, 7, 0, 0⟩), some ("daily".data),
        Json.obj []⟩ ⟨2025, 6, 1, 12, 0, 0⟩ (Except.error ("boom".data))).normSaved = false :=
  ⟨(c7_normalize_canonical_idempotent ⟨2025, 1, 1, 7, 0, 0⟩ ("daily".data)
      ⟨2025, 6, 1, 12, 0, 0⟩ (by decide)).1,
   (c7_normalize_canonical_idempotent ⟨2025, 1, 1, 7, 0, 0⟩ ("daily".data)
      ⟨2025, 6, 1, 12, 0, 0⟩ (by decide)).2 ("t".data) (some ("daily".data))
      (Json.obj []) (Except.error ("boom".data))⟩

/-- C8: a `next_run` value that is exactly a calendar date (the ten
character `YYYY-MM-DD` rendering) normalizes to that same date at
07:00:00, for every frequency and every current time. -/
theorem c8_date_only_normalizes_to_seven (y mo d : Nat) (freq : List Char)
    (now : DateTime) (hy1 : 1 ≤ y) (hy2 : y ≤ 9999) (hm1 : 1 ≤ mo) (hm2 : mo ≤ 12)
    (hd1 : 1 ≤ d) (hd2 : d ≤ daysInMonth y mo) :
    normalize_next_run (some (fmtDate y mo d)) freq now =
      some (formatIso ⟨y, mo, d, 7, 0, 0⟩) := by
  have hdm := daysInMonth_le y mo
  have hmem : ∀ c ∈ fmtDate y mo d, (∃ k, k < 10 ∧ c = digC k) ∨ c = '-' :=
    mem_fmtDate y mo d (by omega) (by omega) (by omega)
  have hnows : ∀ c ∈ fmtDate y mo d, isPyWs c = false := by
    intro c hc
    rcases hmem c hc with ⟨k, hk, rfl⟩ | rfl
    · exact isPyWs_digC k hk
    · decide
  have hstrip : pyStrip (fmtDate y mo d) = fmtDate y mo d :=
    pyStrip_eq_self _ hnows
  unfold normalize_next_run
  dsimp only
  rw [if_neg, if_neg, if_pos]
  · rw [hstrip, parseDT_fmtDate y mo d hy1 hy2 hm1 hm2 hd1 hd2]
    rfl
  · constructor
    · rw [hstrip]; exact fmtDate_length y mo d
    · apply isSubstr_false_of_not_mem _ _ 'T' (List.mem_singleton.mpr rfl)
      intro hT
      rcases hmem 'T' hT with ⟨k, hk, hke⟩ | he
      · exact absurd hke.symm (digC_ne k hk 'T' (by interval_cases k <;> decide))
      · exact absurd he (by decide)
  · rw [hstrip]
    intro hnoweq
    have h1 : (pyLower (fmtDate y mo d)).length = 10 := by
      rw [pyLower_length]; exact fmtDate_length y mo d
    rw [hnoweq] at h1
    simp at h1
  · rw [hstrip]
    intro hor
    have h10 := fmtDate_length y mo d
    rcases hor with he | he <;> rw [he] at h10 <;> simp at h10

/-- Witness for C8: `normalize_next_run("2025-01-01", "weekly")` is
`2025-01-01T07:00:00`. -/
theorem c8_witness :
    normalize_next_run (some ("2025-01-01".data)) ("weekly".data) ⟨2025, 6, 1, 12, 0, 0⟩ =
      some ("2025-01-01T07:00:00".data) := by
  have h := c8_date_only_normalizes_to_seven 2025 1 1 ("weekly".data) ⟨2025, 6, 1, 12, 0, 0⟩
    (by decide) (by decide) (by decide) (by decide) (by decide) (by decide)
  have he1 : fmtDate 2025 1 1 = "2025-01-01".data := by decide
  have he2 : formatIso ⟨2025, 1, 1, 7, 0, 0⟩ = "2025-01-01T07:00:00".data := by decide
  rw [he1, he2] at h
  exact h

/-- C10: `run_task` is total at the scheduler interface (it returns a
`RunResult` for every Executor outcome by its type), and every internal
raise — whether the Executor invocation itself raised or response
parsing raised — is converted into the fallback report
`"Error executing task: " ++ message` with the task's prior context as
the returned context. -/
theorem c10_run_task_total_fallback (cfg : Task)
    (outcome : Except (List Char) (List Char)) :
    (∀ e, outcome = Except.error e →
      run_task cfg outcome = ⟨errHead ++ e, cfg.context⟩) ∧
    (∀ t e, outcome = Except.ok t → parseResponse t cfg.context = Except.error e →
      run_task cfg outcome = ⟨errHead ++ e, cfg.context⟩) := by
  constructor
  · rintro e rfl
    rfl
  · rintro t e rfl hp
    simp [run_task, hp]

/-- Witness for C10: a raised Executor call and a response whose
`NEW_MEMORY:` split raises both yield the fallback result. -/
theorem c10_witness :
    run_task ⟨"t".data, none, none, Json.null⟩ (Except.error ("boom".data)) =
      ⟨errHead ++ ("boom".data), Json.null⟩ ∧
    run_task ⟨"t".data, none, none, Json.null⟩
        (Except.ok ("USER_REPORT: a NEW_MEMORY: b NEW_MEMORY: c".data)) =
      ⟨errHead ++ unpackMsg, Json.null⟩ :=
  ⟨(c10_run_task_total_fallback ⟨"t".data, none, none, Json.null⟩
      (Except.error ("boom".data))).1 ("boom".data) rfl,
   (c10_run_task_total_fallback ⟨"t".data, none, none, Json.null⟩
      (Except.ok ("USER_REPORT: a NEW_MEMORY: b NEW_MEMORY: c".data))).2
      ("USER_REPORT: a NEW_MEMORY: b NEW_MEMORY: c".data) unpackMsg rfl (by rfl)⟩

/-- Sample context object used by concrete counterexamples and witnesses. -/
def demoCtx : Json := Json.obj [("a".data, Json.num 1)]

/-- Sample task: canonical past `next_run`, daily frequency. -/
def demoTask : Task :=
  ⟨"t".data, some ("2025-01-01T00:00:00".data), some ("daily".data), demoCtx⟩

/-- Sample check time, one day after `demoTask`'s `next_run`. -/
def demoNow : DateTime := ⟨2025, 1, 2, 0, 0, 0⟩

/-- An Executor exception message long enough that the fallback report
reaches 200 characters. -/
def longMsg : List Char := List.replicate 200 'x'

/-- C9: when a due task's run is classified as a hard failure, the report
has nevertheless been written by the ResultWriter (the save precedes the
failure check), while the persisted schedule and context are not
advanced. -/
theorem c9_report_written_even_on_failure (task : Task) (now : DateTime)
    (exec : Except (List Char) (List Char)) (s : List Char) (nr : DateTime)
    (h1 : normalize_next_run task.next_run (task.frequency.getD ("daily".data)) now = some s)
    (h2 : parseDT s = some nr)
    (h3 : dtKey nr ≤ dtKey now)
    (h4 : isFailureReport (run_task task exec).report = true) :
    (processTask task now exec).savedReport = some (run_task task exec).report ∧
    (processTask task now exec).finalNextRun = some s ∧
    (processTask task now exec).finalContext = task.context := by
  unfold processTask
  dsimp only
  rw [h1]
  dsimp only
  rw [h2]
  dsimp only
  rw [if_pos h3, if_pos h4]
  exact ⟨rfl, rfl, rfl⟩

/-- Witness for C9 at `demoTask` with a raising Executor. -/
theorem c9_witness :
    (processTask demoTask demoNow (Except.error ("boom".data))).savedReport =
      some (run_task demoTask (Except.error ("boom".data))).report ∧
    (processTask demoTask demoNow (Except.error ("boom".data))).finalNextRun =
      some ("2025-01-01T00:00:00".data) ∧
    (processTask demoTask demoNow (Except.error ("boom".data))).finalContext =
      demoTask.context :=
  c9_report_written_even_on_failure demoTask demoNow (Except.error ("boom".data))
    ("2025-01-01T00:00:00".data) ⟨2025, 1, 1, 0, 0, 0⟩
    (by decide) (by decide) (by decide) (by decide)

theorem isSubstr_of_isPrefixOf (nd hay : List Char) (h : nd.isPrefixOf hay = true) :
    isSubstr nd hay = true := by
  cases hay with
  | nil => simpa [isSubstr] using h
  | cons c t => simp [isSubstr, h]

theorem isFailureReport_errHead (msg : List Char) (h : (errHead ++ msg).length < 200) :
    isFailureReport (errHead ++ msg) = true := by
  have hp : ("Error executing task:".data).isPrefixOf (errHead ++ msg) = true := by
    rw [List.isPrefixOf_iff_prefix]
    exact List.IsPrefix.trans (by decide) (List.prefix_append errHead msg)
  have hsub : isSubstr ("Error".data) (errHead ++ msg) = true := by
    apply isSubstr_of_isPrefixOf
    rw [List.isPrefixOf_iff_prefix]
    exact List.IsPrefix.trans (by decide) (List.prefix_append errHead msg)
  unfold isFailureReport
  rw [hsub, hp, decide_eq_true h]
  rfl

/-- C1 counterexample: an Executor raise with a long message produces the
system-error fallback report, yet the scheduler advances the schedule,
because the hard-failure test also requires the report to be shorter than
200 characters, so the claim's "failure is recognized exactly when the
report equals the fallback string" fails. -/
theorem c1_counterexample :
    run_task demoTask (Except.error longMsg) = ⟨errHead ++ longMsg, demoTask.context⟩ ∧
    (processTask demoTask demoNow (Except.error longMsg)).finalNextRun ≠ demoTask.next_run :=
  ⟨rfl, by decide⟩

/-- C1 (amended): when the Executor raises and the fallback report stays
below 200 characters, the run is recognized as a hard failure
(the recognition test being a prefix-plus-length check, not string
equality), the persisted `next_run` and `context` are unchanged, and the
task remains due at any later check time. -/
theorem c1_short_fallback_retains_schedule (task : Task) (now : DateTime)
    (msg s : List Char) (nr : DateTime)
    (h1 : task.next_run = some s)
    (h2 : normalize_next_run task.next_run (task.frequency.getD ("daily".data)) now = some s)
    (h3 : parseDT s = some nr)
    (h4 : dtKey nr ≤ dtKey now)
    (h5 : (errHead ++ msg).length < 200) :
    isFailureReport (run_task task (Except.error msg)).report = true ∧
    (processTask task now (Except.error msg)).finalNextRun = task.next_run ∧
    (processTask task now (Except.error msg)).finalContext = task.context ∧
    (∀ now2 : DateTime, dtKey now ≤ dtKey now2 → dtKey nr ≤ dtKey now2) := by
  have hf : isFailureReport (run_task task (Except.error msg)).report = true :=
    isFailureReport_errHead msg h5
  refine ⟨hf, ?_, ?_, fun now2 hle => le_trans h4 hle⟩ <;>
  · unfold processTask
    dsimp only
    rw [h2]
    dsimp only
    rw [h3]
    dsimp only
    rw [if_pos h4, if_pos hf, h1]

/-- Witness for C1 at `demoTask` with a short raise message. -/
theorem c1_witness :
    isFailureReport (run_task demoTask (Except.error ("boom".data))).report = true ∧
    (processTask demoTask demoNow (Except.error ("boom".data))).finalNextRun =
      demoTask.next_run ∧
    (processTask demoTask demoNow (Except.error ("boom".data))).finalContext =
      demoTask.context ∧
    (∀ now2 : DateTime, dtKey demoNow ≤ dtKey now2 →
      dtKey ⟨2025, 1, 1, 0, 0, 0⟩ ≤ dtKey now2) :=
  c1_short_fallback_retains_schedule demoTask demoNow ("boom".data)
    ("2025-01-01T00:00:00".data) ⟨2025, 1, 1, 0, 0, 0⟩
    rfl (by decide) (by decide) (by decide) (by decide)

/-- A normally returned Executor text that happens to start with the
fallback phrase. -/
def fakeErrText : List Char := "Error executing task: fake".data

/-- C2 counterexample: the Executor returns `fakeErrText` normally, yet
the schedule does not advance — the scheduler misclassifies the short
prefix-matching report as a hard failure, so not every normally returned
text is treated as a success. -/
theorem c2_counterexample :
    (processTask demoTask demoNow (Except.ok fakeErrText)).finalNextRun =
      demoTask.next_run ∧
    calculate_next_run ("2025-01-01T00:00:00".data) ("daily".data) ≠ demoTask.next_run :=
  ⟨by decide, by decide⟩

/-- C2 (amended): a normally returned text advances the schedule with
best-effort context extraction provided (a) interpreting the response
does not itself raise (which happens when the remainder splits on
`NEW_MEMORY:` into more than two parts), and (b) the parsed report does
not trip the hard-failure test (start with the fallback phrase at under
200 characters); date overflow while computing the next timestamp is
also excluded. -/
theorem c2_normal_return_advances (task : Task) (now : DateTime)
    (text s nnr : List Char) (nr : DateTime) (pr : RunResult)
    (h1 : normalize_next_run task.next_run (task.frequency.getD ("daily".data)) now = some s)
    (h2 : parseDT s = some nr)
    (h3 : dtKey nr ≤ dtKey now)
    (h4 : parseResponse text task.context = Except.ok pr)
    (h5 : isFailureReport pr.report = false)
    (h6 : calculate_next_run s (task.frequency.getD ("daily".data)) = some nnr) :
    (processTask task now (Except.ok text)).finalNextRun = some nnr ∧
    (processTask task now (Except.ok text)).finalContext = pr.new_context ∧
    (processTask task now (Except.ok text)).savedReport = some pr.report := by
  have hr : run_task task (Except.ok text) = pr := by
    unfold run_task
    dsimp only
    rw [h4]
  unfold processTask
  dsimp only
  rw [h1]
  dsimp only
  rw [h2]
  dsimp only
  rw [if_pos h3, hr, if_neg (by rw [h5]; exact Bool.false_ne_true), h6]
  exact ⟨rfl, rfl, rfl⟩

/-- A well-formed two-block Executor response. -/
def goodText : List Char :=
  ("USER_REPORT: did it NEW_MEMORY: \x7b\x22done\x22: true\x7d".data)

/-- Witness for C2 at `demoTask` with a well-formed response. -/
theorem c2_witness :
    (processTask demoTask demoNow (Except.ok goodText)).finalNextRun =
      some ("2025-01-02T00:00:00".data) ∧
    (processTask demoTask demoNow (Except.ok goodText)).finalContext =
      (RunResult.mk ("did it".data) (Json.obj [("done".data, Json.bool true)])).new_context ∧
    (processTask demoTask demoNow (Except.ok goodText)).savedReport =
      some (RunResult.mk ("did it".data) (Json.obj [("done".data, Json.bool true)])).report :=
  c2_normal_return_advances demoTask demoNow goodText
    ("2025-01-01T00:00:00".data) ("2025-01-02T00:00:00".data) ⟨2025, 1, 1, 0, 0, 0⟩
    ⟨"did it".data, Json.obj [("done".data, Json.bool true)]⟩
    (by decide) (by decide) (by decide) (by rfl) (by decide) (by decide)

/-- C3 counterexample: with no `USER_REPORT:` marker, the parser returns
the empty object as the new context — neither the prior context nor
anything successfully parsed out of the text — so "context is only ever
replaced by a successfully-parsed structured object" fails. -/
theorem c3_counterexample :
    parseResponse ("hello".data) demoCtx = Except.ok ⟨"hello".data, Json.obj []⟩ ∧
    Json.obj [] ≠ demoCtx := by
  refine ⟨rfl, ?_⟩
  intro h
  rw [demoCtx] at h
  simp at h

/-- C3 (amended): when both markers are present, the split has exactly
two parts, and the extracted memory substring is empty or fails to parse
as JSON, the returned context is the prior context unchanged and the
report carries an appended parse-failure diagnostic note; when a marker
is absent, however, the new context is the empty object regardless of the
prior context. -/
theorem c3_memory_parse_failure_preserves_context (text : List Char) (ctx : Json)
    (rp mp : List Char)
    (h1 : isSubstr urMarker text = true)
    (h2 : isSubstr nmMarker ((pySplit urMarker text).getD 1 []) = true)
    (h3 : pySplit nmMarker ((pySplit urMarker text).getD 1 []) = [rp, mp])
    (h4 : (if extractClean mp = [] then none else jsonParse (extractClean mp)) = none) :
    parseResponse text ctx = Except.ok
      ⟨pyStrip rp ++ parseFailNote (if extractClean mp = [] then emptyMemMsg else jsonErrMsg),
        ctx⟩ := by
  unfold parseResponse
  rw [if_pos h1]
  dsimp only
  rw [if_pos h2, h3]
  dsimp only
  rw [h4]

/-- Witness for C3 with a malformed memory block. -/
theorem c3_witness :
    parseResponse ("USER_REPORT: ok NEW_MEMORY: \x7bbad".data) demoCtx =
      Except.ok ⟨pyStrip (" ok ".data) ++
        parseFailNote (if extractClean (" \x7bbad".data) = [] then emptyMemMsg else jsonErrMsg),
        demoCtx⟩ :=
  c3_memory_parse_failure_preserves_context ("USER_REPORT: ok NEW_MEMORY: \x7bbad".data)
    demoCtx (" ok ".data) (" \x7bbad".data) (by decide) (by decide) (by decide) (by rfl)

/-- A task whose stored `next_run` is the `"now"` sentinel. -/
def nowSentinelTask : Task := ⟨"t".data, some ("now".data), some ("daily".data), demoCtx⟩

/-- C4 counterexample: a `"now"`-sentinel task whose Executor raises ends
the pass with a changed persisted `next_run` (the normalization rewrite)
but an unchanged `context`, so the two fields do not change together in
every pass. -/
theorem c4_counterexample :
    (processTask nowSentinelTask ⟨2025, 1, 1, 12, 0, 0⟩
        (Except.error ("boom".data))).finalNextRun ≠ nowSentinelTask.next_run ∧
    (processTask nowSentinelTask ⟨2025, 1, 1, 12, 0, 0⟩
        (Except.error ("boom".data))).finalContext = nowSentinelTask.context :=
  ⟨by decide, rfl⟩

/-- C4 (amended): for a task whose stored `next_run` is already canonical
(normalization returns it unchanged), one pass either leaves the
persisted `next_run` and `context` exactly as they were or writes, in a
single save, the advanced `next_run` together with the run's new context;
only the normalization rewrite can move `next_run` without touching
`context`. -/
theorem c4_canonical_pass_updates_both_or_neither (task : Task) (now : DateTime)
    (exec : Except (List Char) (List Char)) (s : List Char)
    (h1 : task.next_run = some s)
    (h2 : normalize_next_run task.next_run (task.frequency.getD ("daily".data)) now = some s) :
    ((processTask task now exec).finalNextRun = task.next_run ∧
      (processTask task now exec).finalContext = task.context) ∨
    ((processTask task now exec).finalNextRun =
        calculate_next_run s (task.frequency.getD ("daily".data)) ∧
      (processTask task now exec).finalContext = (run_task task exec).new_context) := by
  unfold processTask
  dsimp only
  rw [h2]
  dsimp only
  cases hp : parseDT s with
  | none => exact Or.inl ⟨by rw [h1], rfl⟩
  | some nr =>
    dsimp only
    by_cases hdue : dtKey nr ≤ dtKey now
    · rw [if_pos hdue]
      by_cases hfail : isFailureReport (run_task task exec).report = true
      · rw [if_pos hfail]
        exact Or.inl ⟨by rw [h1], rfl⟩
      · rw [if_neg hfail]
        cases hc : calculate_next_run s (task.frequency.getD ("daily".data)) with
        | none => exact Or.inl ⟨by rw [h1], rfl⟩
        | some nnr => exact Or.inr ⟨rfl, rfl⟩
    · rw [if_neg hdue]
      exact Or.inl ⟨by rw [h1], rfl⟩

/-- A canonical task not yet due at `demoNow`. -/
def futureTask : Task :=
  ⟨"t".data, some ("2030-01-01T00:00:00".data), some ("daily".data), demoCtx⟩

/-- Witness for C4 at a canonical, not-yet-due task. -/
theorem c4_witness :
    ((processTask futureTask demoNow (Except.error ("boom".data))).finalNextRun =
        futureTask.next_run ∧
      (processTask futureTask demoNow (Except.error ("boom".data))).finalContext =
        futureTask.context) ∨
    ((processTask futureTask demoNow (Except.error ("boom".data))).finalNextRun =
        calculate_next_run ("2030-01-01T00:00:00".data)
          (futureTask.frequency.getD ("daily".data)) ∧
      (processTask futureTask demoNow (Except.error ("boom".data))).finalContext =
        (run_task futureTask (Except.error ("boom".data))).new_context) :=
  c4_canonical_pass_updates_both_or_neither futureTask demoNow
    (Except.error ("boom".data)) ("2030-01-01T00:00:00".data) rfl (by decide)

/-- Standard decimal rendering of a natural number (no padding), used to
quantify over the numeric recurrence strings `"<N> day(s)"` and friends. -/
def fmtNat (n : Nat) : List Char :=
  if n < 10 then [digC n] else fmtNat (n / 10) ++ [digC (n % 10)]
termination_by n
decreasing_by
  exact Nat.div_lt_self (by omega) (by omega)

theorem fmtNat_chars (n : Nat) : ∀ c ∈ fmtNat n, ∃ d, d < 10 ∧ c = digC d := by
  induction n using Nat.strong_induction_on with
  | _ n ih =>
    rw [fmtNat]
    by_cases h : n < 10
    · rw [if_pos h]
      intro c hc
      rw [List.mem_singleton] at hc
      exact ⟨n, h, hc⟩
    · rw [if_neg h]
      intro c hc
      rcases List.mem_append.mp hc with h1 | h2
      · exact ih (n / 10) (Nat.div_lt_self (by omega) (by omega)) c h1
      · rw [List.mem_singleton] at h2
        exact ⟨n % 10, by omega, h2⟩

theorem fmtNat_shape (n : Nat) : ∃ d t, d < 10 ∧ fmtNat n = digC d :: t := by
  induction n using Nat.strong_induction_on with
  | _ n ih =>
    rw [fmtNat]
    by_cases h : n < 10
    · rw [if_pos h]
      exact ⟨n, [], h, rfl⟩
    · rw [if_neg h]
      obtain ⟨d, t, hd, he⟩ := ih (n / 10) (Nat.div_lt_self (by omega) (by omega))
      exact ⟨d, t ++ [digC (n % 10)], hd, by rw [he]; rfl⟩

theorem fmtNat_all_digits (n : Nat) :
    (fmtNat n).all (fun c => (digVal c).isSome) = true := by
  rw [List.all_eq_true]
  intro c hc
  obtain ⟨d, hd, rfl⟩ := fmtNat_chars n c hc
  rw [digVal_digC d hd]
  rfl

theorem fmtNat_fold (n : Nat) :
    (fmtNat n).foldl (fun a c => a * 10 + ((digVal c).getD 0)) 0 = n := by
  induction n using Nat.strong_induction_on with
  | _ n ih =>
    rw [fmtNat]
    by_cases h : n < 10
    · rw [if_pos h]
      simp [digVal_digC n h]
    · rw [if_neg h]
      rw [List.foldl_append]
      rw [ih (n / 10) (Nat.div_lt_self (by omega) (by omega))]
      simp [digVal_digC (n % 10) (by omega)]
      omega

theorem digitsVal_fmtNat (n : Nat) : digitsVal (fmtNat n) = some n := by
  obtain ⟨d, t, hd, he⟩ := fmtNat_shape n
  rw [digitsVal, if_pos ⟨by rw [he]; exact List.cons_ne_nil _ _, fmtNat_all_digits n⟩,
    fmtNat_fold n]

theorem fmtNat_no_ws (n : Nat) : ∀ c ∈ fmtNat n, isPyWs c = false := by
  intro c hc
  obtain ⟨d, hd, rfl⟩ := fmtNat_chars n c hc
  exact isPyWs_digC d hd

theorem pyInt_fmtNat (n : Nat) : pyInt (fmtNat n) = some (n : Int) := by
  obtain ⟨d, t, hd, he⟩ := fmtNat_shape n
  unfold pyInt
  rw [pyStrip_eq_self _ (fmtNat_no_ws n), he]
  dsimp only
  rw [if_neg (digC_ne d hd '-' (by rw [show Char.toNat '-' = 45 from rfl]; omega)),
    if_neg (digC_ne d hd '+' (by rw [show Char.toNat '+' = 43 from rfl]; omega)),
    ← he, digitsVal_fmtNat n]
  rfl

theorem pyLower_eq_self_of (s : List Char) (h : ∀ c ∈ s, Char.toLower c = c) :
    pyLower s = s := by
  unfold pyLower
  induction s with
  | nil => rfl
  | cons a t ih =>
    rw [List.map_cons, h a (List.mem_cons_self a t),
      ih (fun c hc => h c (List.mem_cons_of_mem a hc))]

theorem pyLower_fmtNat (n : Nat) : pyLower (fmtNat n) = fmtNat n :=
  pyLower_eq_self_of _ (fun c hc => by
    obtain ⟨d, hd, rfl⟩ := fmtNat_chars n c hc
    exact toLower_digC d hd)

theorem takeWhile_append_stop (p : Char → Bool) (l : List Char) (x : Char)
    (m : List Char) (hl : ∀ c ∈ l, p c = true) (hx : p x = false) :
    (l ++ x :: m).takeWhile p = l := by
  induction l with
  | nil =>
    rw [List.nil_append, List.takeWhile_cons, hx]
    rfl
  | cons a t ih =>
    rw [List.cons_append, List.takeWhile_cons, hl a (List.mem_cons_self a t)]
    rw [ih (fun c hc => hl c (List.mem_cons_of_mem a hc))]
    exact if_pos rfl

theorem splitWs_head_token (a : Char) (t r : List Char)
    (hnws : ∀ c ∈ a :: t, isPyWs c = false) :
    (splitWs ((a :: t) ++ ' ' :: r)).head? = some (a :: t) := by
  unfold splitWs
  rw [List.cons_append]
  simp only [splitWsAux]
  rw [List.dropWhile_cons,
    if_neg (by rw [hnws a (List.mem_cons_self a t)]; exact Bool.false_ne_true)]
  dsimp only
  rw [show a :: (t ++ ' ' :: r) = (a :: t) ++ ' ' :: r from rfl]
  rw [takeWhile_append_stop _ _ _ _ (fun c hc => by rw [hnws c hc]; rfl) (by decide)]
  rfl

theorem gfd_token (n : Nat) (w : List Char) :
    ((splitWs (fmtNat n ++ ' ' :: w)).head?.bind pyInt) = some ((n : Nat) : Int) := by
  obtain ⟨d, t, hd, he⟩ := fmtNat_shape n
  rw [he, splitWs_head_token (digC d) t w (by rw [← he]; exact fmtNat_no_ws n), ← he]
  rw [Option.some_bind]
  exact pyInt_fmtNat n

theorem ne_of_mem_not_mem (l m : List Char) (c : Char) (hc : c ∈ l) (hm : c ∉ m) :
    l ≠ m := fun h => hm (h ▸ hc)

theorem space_mem_numform (n : Nat) (w : List Char) : ' ' ∈ fmtNat n ++ ' ' :: w :=
  List.mem_append_right _ (List.mem_cons_self _ _)

theorem pyLower_numform (n : Nat) (w : List Char) (hlow : pyLower w = w) :
    pyLower (fmtNat n ++ ' ' :: w) = fmtNat n ++ ' ' :: w := by
  unfold pyLower at hlow ⊢
  rw [List.map_append, List.map_cons]
  rw [show Char.toLower ' ' = ' ' from rfl, hlow,
    show (fmtNat n).map Char.toLower = fmtNat n from pyLower_fmtNat n]

theorem not_mem_numform (n : Nat) (w : List Char) (c : Char)
    (hdig : ∀ d, d < 10 → digC d ≠ c) (hsp : c ≠ ' ') (hw : c ∉ w) :
    c ∉ fmtNat n ++ ' ' :: w := by
  intro hmem
  rcases List.mem_append.mp hmem with h1 | h2
  · obtain ⟨d, hd, hcd⟩ := fmtNat_chars n c h1
    exact hdig d hd hcd.symm
  · rcases List.mem_cons.mp h2 with rfl | h3
    · exact hsp rfl
    · exact hw h3

theorem gfd_day_form (n : Nat) (w : List Char) (hlow : pyLower w = w)
    (hday : isSubstr ("day".data) w = true) :
    get_frequency_delta (fmtNat n ++ ' ' :: w) = ⟨0, (n : Int)⟩ := by
  have hflow := pyLower_numform n w hlow
  have hsp := space_mem_numform n w
  unfold get_frequency_delta
  rw [hflow]
  rw [if_neg (ne_of_mem_not_mem _ _ ' ' hsp (by decide)),
    if_neg (ne_of_mem_not_mem _ _ ' ' hsp (by decide)),
    if_neg (ne_of_mem_not_mem _ _ ' ' hsp (by decide)),
    if_pos (isSubstr_append_right _ _ _ (isSubstr_cons_of _ _ _ hday)),
    gfd_token n w]

theorem gfd_week_form (n : Nat) (w : List Char) (hlow : pyLower w = w)
    (hweek : isSubstr ("week".data) w = true) (hnd : 'd' ∉ w) :
    get_frequency_delta (fmtNat n ++ ' ' :: w) = ⟨0, 7 * (n : Int)⟩ := by
  have hflow := pyLower_numform n w hlow
  have hsp := space_mem_numform n w
  have hnoday : isSubstr ("day".data) (fmtNat n ++ ' ' :: w) = false :=
    isSubstr_false_of_not_mem _ _ 'd' (by decide)
      (not_mem_numform n w 'd'
        (fun d hd => digC_ne d hd 'd' (by rw [show Char.toNat 'd' = 100 from rfl]; omega))
        (by decide) hnd)
  unfold get_frequency_delta
  rw [hflow]
  rw [if_neg (ne_of_mem_not_mem _ _ ' ' hsp (by decide)),
    if_neg (ne_of_mem_not_mem _ _ ' ' hsp (by decide)),
    if_neg (ne_of_mem_not_mem _ _ ' ' hsp (by decide)),
    if_neg (by rw [hnoday]; exact Bool.false_ne_true),
    if_pos (isSubstr_append_right _ _ _ (isSubstr_cons_of _ _ _ hweek)),
    gfd_token n w]

theorem gfd_month_form (n : Nat) (w : List Char) (hlow : pyLower w = w)
    (hmonth : isSubstr ("month".data) w = true) (hnd : 'd' ∉ w) (hnw : 'w' ∉ w) :
    get_frequency_delta (fmtNat n ++ ' ' :: w) = ⟨(n : Int), 0⟩ := by
  have hflow := pyLower_numform n w hlow
  have hsp := space_mem_numform n w
  have hnoday : isSubstr ("day".data) (fmtNat n ++ ' ' :: w) = false :=
    isSubstr_false_of_not_mem _ _ 'd' (by decide)
      (not_mem_numform n w 'd'
        (fun d hd => digC_ne d hd 'd' (by rw [show Char.toNat 'd' = 100 from rfl]; omega))
        (by decide) hnd)
  have hnoweek : isSubstr ("week".data) (fmtNat n ++ ' ' :: w) = false :=
    isSubstr_false_of_not_mem _ _ 'w' (by decide)
      (not_mem_numform n w 'w'
        (fun d hd => digC_ne d hd 'w' (by rw [show Char.toNat 'w' = 119 from rfl]; omega))
        (by decide) hnw)
  unfold get_frequency_delta
  rw [hflow]
  rw [if_neg (ne_of_mem_not_mem _ _ ' ' hsp (by decide)),
    if_neg (ne_of_mem_not_mem _ _ ' ' hsp (by decide)),
    if_neg (ne_of_mem_not_mem _ _ ' ' hsp (by decide)),
    if_neg (by rw [hnoday]; exact Bool.false_ne_true),
    if_neg (by rw [hnoweek]; exact Bool.false_ne_true),
    if_pos (isSubstr_append_right _ _ _ (isSubstr_cons_of _ _ _ hmonth)),
    gfd_token n w]

/-- C6 counterexample: `"biweekly"` matches none of the recognized forms
(`daily`, `weekly`, `monthly`, `"<N> day(s)"`, `"<N> week(s)"`,
`"<N> month(s)"`), so the claim says it yields one day; the code's
substring test sees `week` and yields one week instead. -/
theorem c6_counterexample :
    get_frequency_delta ("biweekly".data) = ⟨0, 7⟩ ∧
    (⟨0, 7⟩ : RelativeDelta) ≠ ⟨0, 1⟩ :=
  ⟨by decide, by decide⟩

/-- C6 (amended): the exact strings daily/weekly/monthly give one
day/week/month, and `"<N> day(s)"`, `"<N> week(s)"`, `"<N> month(s)"`
give exactly N of the named unit; but the unit is selected by a
case-insensitive substring test (day before week before month), with the
first whitespace token parsed as the count and one unit as the fallback
when that parse fails, so only strings containing none of the three unit
substrings (and not equal to `daily`) default to one day. -/
theorem c6_frequency_delta_behavior :
    (∀ n : Nat,
      get_frequency_delta (fmtNat n ++ ' ' :: ("day".data)) = ⟨0, (n : Int)⟩ ∧
      get_frequency_delta (fmtNat n ++ ' ' :: ("days".data)) = ⟨0, (n : Int)⟩) ∧
    (∀ n : Nat,
      get_frequency_delta (fmtNat n ++ ' ' :: ("week".data)) = ⟨0, 7 * (n : Int)⟩ ∧
      get_frequency_delta (fmtNat n ++ ' ' :: ("weeks".data)) = ⟨0, 7 * (n : Int)⟩) ∧
    (∀ n : Nat,
      get_frequency_delta (fmtNat n ++ ' ' :: ("month".data)) = ⟨(n : Int), 0⟩ ∧
      get_frequency_delta (fmtNat n ++ ' ' :: ("months".data)) = ⟨(n : Int), 0⟩) ∧
    (∀ s : List Char, isSubstr ("day".data) (pyLower s) = true →
      (splitWs (pyLower s)).head?.bind pyInt = none →
      get_frequency_delta s = ⟨0, 1⟩) ∧
    (∀ s : List Char, isSubstr ("week".data) (pyLower s) = true →
      isSubstr ("day".data) (pyLower s) = false →
      (splitWs (pyLower s)).head?.bind pyInt = none →
      get_frequency_delta s = ⟨0, 7⟩) ∧
    (∀ s : List Char, isSubstr ("month".data) (pyLower s) = true →
      isSubstr ("day".data) (pyLower s) = false →
      isSubstr ("week".data) (pyLower s) = false →
      (splitWs (pyLower s)).head?.bind pyInt = none →
      get_frequency_delta s = ⟨1, 0⟩) ∧
    (∀ s : List Char, isSubstr ("day".data) (pyLower s) = false →
      isSubstr ("week".data) (pyLower s) = false →
      isSubstr ("month".data) (pyLower s) = false →
      pyLower s ≠ ("daily".data) →
      get_frequency_delta s = ⟨0, 1⟩) := by
  refine ⟨?_, ?_, ?_, ?_, ?_, ?_, ?_⟩
  · intro n
    exact ⟨gfd_day_form n ("day".data) (by decide) (by decide),
      gfd_day_form n ("days".data) (by decide) (by decide)⟩
  · intro n
    exact ⟨gfd_week_form n ("week".data) (by decide) (by decide) (by decide),
      gfd_week_form n ("weeks".data) (by decide) (by decide) (by decide)⟩
  · intro n
    exact ⟨gfd_month_form n ("month".data) (by decide) (by decide) (by decide) (by decide),
      gfd_month_form n ("months".data) (by decide) (by decide) (by decide) (by decide)⟩
  · intro s hday htok
    unfold get_frequency_delta
    by_cases h1 : pyLower s = ("daily".data)
    · rw [if_pos h1]
    · have h2 : pyLower s ≠ ("weekly".data) := by
        intro he
        rw [he] at hday
        exact absurd hday (by decide)
      have h3 : pyLower s ≠ ("monthly".data) := by
        intro he
        rw [he] at hday
        exact absurd hday (by decide)
      rw [if_neg h1, if_neg h2, if_neg h3, if_pos hday, htok]
  · intro s hweek hday htok
    unfold get_frequency_delta
    have h1 : pyLower s ≠ ("daily".data) := by
      intro he
      rw [he] at hweek
      exact absurd hweek (by decide)
    by_cases h2 : pyLower s = ("weekly".data)
    · rw [if_neg h1, if_pos h2]
    · have h3 : pyLower s ≠ ("monthly".data) := by
        intro he
        rw [he] at hweek
        exact absurd hweek (by decide)
      rw [if_neg h1, if_neg h2, if_neg h3,
        if_neg (by rw [hday]; exact Bool.false_ne_true), if_pos hweek, htok]
  · intro s hmonth hday hweek htok
    unfold get_frequency_delta
    have h1 : pyLower s ≠ ("daily".data) := by
      intro he
      rw [he] at hmonth
      exact absurd hmonth (by decide)
    have h2 : pyLower s ≠ ("weekly".data) := by
      intro he
      rw [he] at hmonth
      exact absurd hmonth (by decide)
    by_cases h3 : pyLower s = ("monthly".data)
    · rw [if_neg h1, if_neg h2, if_pos h3]
    · rw [if_neg h1, if_neg h2, if_neg h3,
        if_neg (by rw [hday]; exact Bool.false_ne_true),
        if_neg (by rw [hweek]; exact Bool.false_ne_true), if_pos hmonth, htok]
  · intro s hday hweek hmonth h1
    unfold get_frequency_delta
    have h2 : pyLower s ≠ ("weekly".data) := by
      intro he
      rw [he] at hweek
      exact absurd hweek (by decide)
    have h3 : pyLower s ≠ ("monthly".data) := by
      intro he
      rw [he] at hmonth
      exact absurd hmonth (by decide)
    rw [if_neg h1, if_neg h2, if_neg h3,
      if_neg (by rw [hday]; exact Bool.false_ne_true),
      if_neg (by rw [hweek]; exact Bool.false_ne_true),
      if_neg (by rw [hmonth]; exact Bool.false_ne_true)]

/-- Witness for C6: `"3 days"` yields exactly three days. -/
theorem c6_witness : get_frequency_delta ("3 days".data) = ⟨0, 3⟩ := by
  have h := (c6_frequency_delta_behavior.1 3).2
  have h3 : fmtNat 3 = [digC 3] := by
    rw [fmtNat]
    rfl
  rw [show ("3 days".data) = fmtNat 3 ++ ' ' :: ("days".data) from by rw [h3]; decide]
  exact h

end WillDo
